import Mathlib

/-!
Shallow embedding of the certificate-extraction tool (`main.go` of the
`ca-bundle` repository) and proofs about its target resolution, STARTTLS
negotiation traces, filename derivation and output-file writing.

Strings are modelled either directly (`String`) or through their character
sequences (`List Char`); bytes are `Nat` reduced mod `2 ^ 8` where it
matters; the directory is an association list from filename to contents; and
the network side of one invocation is modelled as the sequence of socket
events the engine performs on its happy path.
-/

namespace CaBundle

/-- A parsed X.509 certificate as the Go code consumes it: the raw DER bytes
(`cert.Raw`), the subject common name (`cert.Subject.CommonName`) and the SAN
DNS names (`cert.DNSNames`). -/
structure Certificate where
  raw : List Nat
  commonName : String
  dnsNames : List String
deriving DecidableEq

/-- The current directory, modelled as an association list from filename to
file contents; the most recent entry for a name shadows older ones, matching
`os.Create` truncation semantics. -/
abbrev FileSys := List (String × String)

/-- First-match lookup of a file's contents. -/
def lookupFs : FileSys → String → Option String
  | [], _ => none
  | (n, contents) :: rest, name =>
    if n == name then some contents else lookupFs rest name

/-- The `os.Stat` existence check of `createIndividualCertificates`. -/
def fileExistsOn (fs : FileSys) (name : String) : Bool :=
  (lookupFs fs name).isSome

/-- `os.Create`: (re)create a file, truncating any previous contents. -/
def fsWrite (fs : FileSys) (name contents : String) : FileSys :=
  (name, contents) :: fs

/-- The character class `[a-zA-Z0-9\-\._]` of the regular expression in
`sanitizeFilename` (`main.go` line 390). -/
def isFilenameChar (c : Char) : Bool :=
  ('a' ≤ c && c ≤ 'z') || ('A' ≤ c && c ≤ 'Z') || ('0' ≤ c && c ≤ '9') ||
    c == '-' || c == '.' || c == '_'

/-- `sanitizeFilename` (`main.go` lines 388–397) on the character sequence of
the name: `re.ReplaceAllString(name, "_")` — the regex matches one rune at a
time, so replacement is a character map — followed by
`strings.TrimPrefix(cleaned, "*.")`. -/
def sanitizeChars (cs : List Char) : List Char :=
  let cleaned := cs.map fun c => if isFilenameChar c then c else '_'
  if ['*', '.'].isPrefixOf cleaned then cleaned.drop 2 else cleaned

def sanitizeFilename (name : String) : String :=
  String.mk (sanitizeChars name.data)

/-- `generateCertFilename` (`main.go` lines 371–386): sanitized common name
first, else sanitized first DNS name, else the generic `cert_<index>`
fallback; `index` is 1-based. -/
def generateCertFilename (cert : Certificate) (index : Nat) : String :=
  if cert.commonName ≠ "" then
    sanitizeFilename cert.commonName ++ ".crt"
  else
    match cert.dnsNames with
    | dns :: _ => sanitizeFilename dns ++ ".crt"
    | [] => ("cert_" ++ toString index) ++ ".crt"

/-- The standard base64 alphabet used by `encoding/pem`. -/
def base64Chars : List Char :=
  "ABCDEFGHIJKLMNOPQRSTUVWXYZabcdefghijklmnopqrstuvwxyz0123456789+/".data

def b64 (n : Nat) : Char := base64Chars.getD n 'A'

/-- Standard base64 of a byte sequence (bytes reduced mod `2 ^ 8`), with `=`
padding, as `pem.Encode` produces via `base64.StdEncoding`. -/
def base64Encode : List Nat → List Char
  | [] => []
  | [a0] =>
    let a := a0 % 256
    [b64 (a / 4), b64 (a % 4 * 16), '=', '=']
  | [a0, b0] =>
    let a := a0 % 256
    let b := b0 % 256
    [b64 (a / 4), b64 (a % 4 * 16 + b / 16), b64 (b % 16 * 4), '=']
  | a0 :: b0 :: c0 :: rest =>
    let a := a0 % 256
    let b := b0 % 256
    let c := c0 % 256
    b64 (a / 4) :: b64 (a % 4 * 16 + b / 16) :: b64 (b % 16 * 4 + c / 64) ::
      b64 (c % 64) :: base64Encode rest

/-- Split into lines of 64 characters (`pem`'s line length).  The fuel
argument, instantiated with the list's length in `chunk64`, only bounds the
recursion; each step consumes at least one character, so the fuel never runs
out before the input does. -/
def chunk64Fuel : Nat → List Char → List (List Char)
  | 0, _ => []
  | _ + 1, [] => []
  | fuel + 1, d :: rest =>
    (d :: rest).take 64 :: chunk64Fuel fuel ((d :: rest).drop 64)

def chunk64 (l : List Char) : List (List Char) :=
  chunk64Fuel l.length l

/-- The base64 body of a PEM block: every 64-character line, including the
final partial one, is followed by a newline. -/
def pemBody (der : List Nat) : List Char :=
  (chunk64 (base64Encode der)).foldr (fun line acc => line ++ '\n' :: acc) []

/-- `pem.Encode` of one `CERTIFICATE` block with no headers. -/
def pemEncodeCert (der : List Nat) : String :=
  "-----BEGIN CERTIFICATE-----\n" ++ String.mk (pemBody der) ++
    "-----END CERTIFICATE-----\n"

/-- Contents of the bundle file written by `createCertificateBundle`
(`main.go` lines 303–334): one PEM block per certificate in chain order, a
bare `"\n"` written after every block except the last. -/
def bundleContent : List Certificate → String
  | [] => ""
  | [c] => pemEncodeCert c.raw
  | c :: c2 :: rest => pemEncodeCert c.raw ++ "\n" ++ bundleContent (c2 :: rest)

/-- Outcome of a run phase: the directory contents afterwards and the error
returned, if any. -/
structure RunResult where
  fs : FileSys
  err : Option String
deriving DecidableEq

/-- `createCertificateBundle` (`main.go` lines 303–334); `fails` is the
environment's file-creation failure oracle modelling `os.Create` errors. -/
def createCertificateBundle (fails : String → Bool) (certs : List Certificate)
    (filename : String) (fs : FileSys) : RunResult :=
  if fails filename then ⟨fs, some "failed to create bundle"⟩
  else ⟨fsWrite fs filename (bundleContent certs), none⟩

/-- The loop of `createIndividualCertificates` (`main.go` lines 336–369):
`i` is the 1-based index passed to `generateCertFilename`; an existing file
is skipped (`continue`); a failed `os.Create` returns the error with the
files written so far left on disk. -/
def createIndividualCertsGo (fails : String → Bool) :
    List Certificate → Nat → FileSys → RunResult
  | [], _, fs => ⟨fs, none⟩
  | cert :: rest, i, fs =>
    let filename := generateCertFilename cert i
    if fileExistsOn fs filename then
      createIndividualCertsGo fails rest (i + 1) fs
    else if fails filename then
      ⟨fs, some "failed to create individual certificate"⟩
    else
      createIndividualCertsGo fails rest (i + 1)
        (fsWrite fs filename (pemEncodeCert cert.raw))

def createIndividualCertificates (fails : String → Bool)
    (certs : List Certificate) (fs : FileSys) : RunResult :=
  createIndividualCertsGo fails certs 1 fs

/-- `<server>_bundle.pem` (`main.go` line 104). -/
def bundleFileName (server : String) : String := server ++ "_bundle.pem"

/-- The output phase of `extractCertificates` (`main.go` lines 99–117): the
empty-chain check, then the bundle file, then the individual files. -/
def extractCertificatesOutput (fails : String → Bool) (server : String)
    (certs : List Certificate) (fs : FileSys) : RunResult :=
  if certs.length = 0 then ⟨fs, some "no certificates found"⟩
  else
    match createCertificateBundle fails certs (bundleFileName server) fs with
    | ⟨fs1, some e⟩ => ⟨fs1, some e⟩
    | ⟨fs1, none⟩ => createIndividualCertificates fails certs fs1

/-- The 1-based derived filenames of a chain, in order, starting at index
`i`. -/
def derivedFilenames : List Certificate → Nat → List String
  | [], _ => []
  | c :: rest, i => generateCertFilename c i :: derivedFilenames rest (i + 1)

/-- Membership of a string in a list of strings, as a boolean. -/
def hasStr (x : String) : List String → Bool
  | [] => false
  | y :: rest => y == x || hasStr x rest

/-- `Target`: the result of `parseTarget` (`main.go` lines 120–180); the port
is a Go `int`. -/
structure Target where
  server : String
  port : Int
  protocol : String
deriving DecidableEq

/-- Membership of a character in a character sequence: `strings.Contains` for
a one-character pattern, and the byte scans inside `net.SplitHostPort`. -/
def hasChar (c : Char) : List Char → Bool
  | [] => false
  | d :: rest => d == c || hasChar c rest

/-- `strings.HasPrefix` on character sequences. -/
def isPrefixList : List Char → List Char → Bool
  | [], _ => true
  | _ :: _, [] => false
  | p :: ps, s :: ss => p == s && isPrefixList ps ss

/-- `strings.Contains` on character sequences. -/
def containsSub (pat : List Char) : List Char → Bool
  | [] => pat.isEmpty
  | s :: rest => isPrefixList pat (s :: rest) || containsSub pat rest

/-- `strings.SplitN(target, sep, 2)`: the part before the first occurrence of
`sep` and the part after it; `none` when `sep` does not occur. -/
def splitOnce (pat : List Char) : List Char → Option (List Char × List Char)
  | [] => if pat.isEmpty then some ([], []) else none
  | s :: rest =>
    if isPrefixList pat (s :: rest) then some ([], (s :: rest).drop pat.length)
    else
      match splitOnce pat rest with
      | some (l, r) => some (s :: l, r)
      | none => none

/-- Index of the last `':'` (`net.SplitHostPort`'s `last(hostPort, ':')`). -/
def lastColonIdx : List Char → Option Nat
  | [] => none
  | c :: rest =>
    match lastColonIdx rest with
    | some i => some (i + 1)
    | none => if c == ':' then some 0 else none

/-- Index of the first `']'` (`net.SplitHostPort`'s bracket scan). -/
def firstRBracketIdx : List Char → Option Nat
  | [] => none
  | c :: rest =>
    if c == ']' then some 0
    else
      match firstRBracketIdx rest with
      | some i => some (i + 1)
      | none => none

/-- `net.SplitHostPort` of the Go standard library.  The distinct error
messages (missing port, too many colons, bracket errors) all collapse to
`none`; `parseTarget` only propagates the failure. -/
def splitHostPort (hostPort : List Char) : Option (List Char × List Char) :=
  match lastColonIdx hostPort with
  | none => none
  | some i =>
    if isPrefixList ['['] hostPort then
      match firstRBracketIdx hostPort with
      | none => none
      | some e =>
        if e + 1 = hostPort.length then none
        else if e + 1 = i then
          let host := (hostPort.take e).drop 1
          if hasChar '[' (hostPort.drop 1) then none
          else if hasChar ']' (hostPort.drop (e + 1)) then none
          else some (host, hostPort.drop (i + 1))
        else none
    else
      let host := hostPort.take i
      if hasChar ':' host then none
      else if hasChar '[' hostPort then none
      else if hasChar ']' hostPort then none
      else some (host, hostPort.drop (i + 1))

/-- The digit parse inside `strconv.Atoi`: `none` on an empty digit string or
any non-ASCII-digit character. -/
def digitsToNat : List Char → Option Nat
  | [] => none
  | d :: rest =>
    if (d :: rest).all (fun c => c.isDigit) then
      some ((d :: rest).foldl (fun a c => a * 10 + (c.toNat - 48)) 0)
    else none

/-- `strconv.Atoi`: optional sign, decimal digits, signed-64-bit range check
(out-of-range values make `Atoi` return an error). -/
def goAtoi (s : List Char) : Option Int :=
  match s with
  | '+' :: rest =>
    (digitsToNat rest).bind fun n =>
      if n ≤ 2 ^ 63 - 1 then some (n : Int) else none
  | '-' :: rest =>
    (digitsToNat rest).bind fun n =>
      if n ≤ 2 ^ 63 then some (-(n : Int)) else none
  | _ =>
    (digitsToNat s).bind fun n =>
      if n ≤ 2 ^ 63 - 1 then some (n : Int) else none

/-- Scheme-specific default ports (`main.go` lines 150–161). -/
def defaultPort (protocol : List Char) : Int :=
  if protocol = "https".data then 443
  else if protocol = "smtp".data then 587
  else if protocol = "imap".data then 143
  else if protocol = "pop3".data then 110
  else 443

/-- `parseTarget` (`main.go` lines 120–180) on the character sequence of the
target string.  `Char.toLower` is ASCII-only where Go's `strings.ToLower` is
Unicode-aware; the difference only affects which arm of the scheme switch a
non-ASCII scheme name hits, and every unknown scheme defaults to 443 in both
cases. -/
def parseTarget (target : List Char) : Option Target :=
  if containsSub "://".data target then
    match splitOnce "://".data target with
    | none => none
    | some (protoPart, serverPart0) =>
      let protocol := protoPart.map Char.toLower
      let serverPart := serverPart0.takeWhile (fun c => !(c == '/'))
      if hasChar ':' serverPart then
        match splitHostPort serverPart with
        | none => none
        | some (host, portStr) =>
          match goAtoi portStr with
          | none => none
          | some p => some ⟨String.mk host, p, String.mk protocol⟩
      else
        some ⟨String.mk serverPart, defaultPort protocol, String.mk protocol⟩
  else if hasChar ':' target then
    match splitHostPort target with
    | none => none
    | some (host, portStr) =>
      match goAtoi portStr with
      | none => none
      | some p => some ⟨String.mk host, p, "https"⟩
  else
    some ⟨String.mk target, 443, "https"⟩

def parseTargetStr (target : String) : Option Target :=
  parseTarget target.data

/-- One socket-level action of the engine, as seen on the wire. -/
inductive NetEvent where
  | connect (server : String) (port : Int)
  | readResp
  | write (data : String)
  | tlsHandshake (serverName : String)
  | closeConn
deriving DecidableEq

def isHandshake : NetEvent → Bool
  | .tlsHandshake _ => true
  | _ => false

def writeData : NetEvent → Option String
  | .write d => some d
  | _ => none

/-- Number of TCP connections opened in a trace. -/
def countConnects : List NetEvent → Nat
  | [] => 0
  | .connect _ _ :: rest => countConnects rest + 1
  | _ :: rest => countConnects rest

/-- The STARTTLS command chosen by the protocol switch in
`getTLSCertificatesWithSTARTTLS` (`main.go` lines 261–274). -/
def starttlsCommand (protocol : String) : Option String :=
  if protocol = "smtp" then some "STARTTLS\r\n"
  else if protocol = "imap" then some "a001 STARTTLS\r\n"
  else if protocol = "pop3" then some "STLS\r\n"
  else none

/-- Happy-path socket trace of `getTLSCertificates` (`main.go` lines
182–199): `tls.DialWithDialer` opens the TCP connection and performs the
handshake; the deferred close follows. -/
def getTLSCertificatesTrace (server : String) (port : Int) : List NetEvent :=
  [.connect server port, .tlsHandshake server, .closeConn]

/-- Happy-path socket trace of `getTLSCertificatesWithSTARTTLS` (`main.go`
lines 242–301): connect, read the greeting, for smtp additionally write
`EHLO localhost` and read its response, then write the STARTTLS command, read
its response, perform the TLS handshake on the same socket, and close.  An
unsupported protocol returns an error right after the greeting, before
writing anything. -/
def getTLSCertificatesWithSTARTTLSTrace (server : String) (port : Int)
    (protocol : String) : List NetEvent :=
  [.connect server port, .readResp] ++
    (if protocol = "smtp" then [.write "EHLO localhost\r\n", .readResp]
     else []) ++
    (match starttlsCommand protocol with
     | some cmd => [.write cmd, .readResp, .tlsHandshake server, .closeConn]
     | none => [.closeConn])

/-- Socket events of the Go standard-library SMTP client on the first
connection of `getSMTPCertificates` (`main.go` lines 201–229):
`smtp.NewClient` reads the greeting; `client.StartTLS` sends `EHLO`, reads
the response, sends `STARTTLS`, reads the response and performs a TLS
handshake on the same socket. -/
def smtpClientEvents (server : String) : List NetEvent :=
  [.readResp, .write "EHLO localhost\r\n", .readResp,
    .write "STARTTLS\r\n", .readResp, .tlsHandshake server]

/-- Happy-path socket trace of `getSMTPCertificates` (`main.go` lines
201–232): a first TCP connection probed through the standard-library SMTP
client, explicitly closed, followed by the whole
`getTLSCertificatesWithSTARTTLS` run on a second connection.  The deferred
`client.Quit` and `conn.Close` on the already-closed first connection open no
new connection and are omitted. -/
def getSMTPCertificatesTrace (server : String) (port : Int) : List NetEvent :=
  [.connect server port] ++ smtpClientEvents server ++ [.closeConn] ++
    getTLSCertificatesWithSTARTTLSTrace server port "smtp"

/-- Happy-path socket trace of one invocation, per the protocol switch in
`extractCertificates` (`main.go` lines 82–93). -/
def engineTrace (server : String) (port : Int) (protocol : String) :
    List NetEvent :=
  if protocol = "https" ∨ protocol = "tls" then
    getTLSCertificatesTrace server port
  else if protocol = "smtp" then getSMTPCertificatesTrace server port
  else if protocol = "imap" then
    getTLSCertificatesWithSTARTTLSTrace server port "imap"
  else if protocol = "pop3" then
    getTLSCertificatesWithSTARTTLSTrace server port "pop3"
  else getTLSCertificatesTrace server port

/-! ### Helper lemmas about the directory model -/

theorem lookupFs_write_self (fs : FileSys) (name contents : String) :
    lookupFs (fsWrite fs name contents) name = some contents := by
  simp [lookupFs, fsWrite]

theorem lookupFs_write_ne (fs : FileSys) (name contents other : String)
    (h : name ≠ other) :
    lookupFs (fsWrite fs name contents) other = lookupFs fs other := by
  simp [lookupFs, fsWrite, h]

theorem fileExistsOn_write (fs : FileSys) (n contents other : String) :
    fileExistsOn (fsWrite fs n contents) other
      = ((n == other) || fileExistsOn fs other) := by
  simp only [fileExistsOn, fsWrite, lookupFs]
  cases h : n == other
  · simp [h]
  · simp [h]

/-! ### Step equations for the individual-certificate loop -/

theorem createIndividualCertsGo_cons_exists (fails : String → Bool)
    (c : Certificate) (rest : List Certificate) (i : Nat) (fs : FileSys)
    (h : fileExistsOn fs (generateCertFilename c i) = true) :
    createIndividualCertsGo fails (c :: rest) i fs
      = createIndividualCertsGo fails rest (i + 1) fs := by
  simp [createIndividualCertsGo, h]

theorem createIndividualCertsGo_cons_fail (fails : String → Bool)
    (c : Certificate) (rest : List Certificate) (i : Nat) (fs : FileSys)
    (h1 : fileExistsOn fs (generateCertFilename c i) = false)
    (h2 : fails (generateCertFilename c i) = true) :
    createIndividualCertsGo fails (c :: rest) i fs
      = ⟨fs, some "failed to create individual certificate"⟩ := by
  simp [createIndividualCertsGo, h1, h2]

theorem createIndividualCertsGo_cons_write (fails : String → Bool)
    (c : Certificate) (rest : List Certificate) (i : Nat) (fs : FileSys)
    (h1 : fileExistsOn fs (generateCertFilename c i) = false)
    (h2 : fails (generateCertFilename c i) = false) :
    createIndividualCertsGo fails (c :: rest) i fs
      = createIndividualCertsGo fails rest (i + 1)
          (fsWrite fs (generateCertFilename c i)
            (pemEncodeCert c.raw)) := by
  simp [createIndividualCertsGo, h1, h2]

/-- With no file-creation failures the individual-certificate phase never
returns an error. -/
theorem createIndividualCertsGo_noFail_err (certs : List Certificate) :
    ∀ (i : Nat) (fs : FileSys),
      (createIndividualCertsGo (fun _ => false) certs i fs).err = none := by
  induction certs with
  | nil => intro i fs; rfl
  | cons c rest ih =>
    intro i fs
    cases hex : fileExistsOn fs (generateCertFilename c i)
    · rw [createIndividualCertsGo_cons_write _ _ _ _ _ hex rfl]
      exact ih _ _
    · rw [createIndividualCertsGo_cons_exists _ _ _ _ _ hex]
      exact ih _ _

/-- Every derived individual filename ends in `.crt`. -/
theorem generateCertFilename_crt (cert : Certificate) (i : Nat) :
    ∃ y, generateCertFilename cert i = y ++ ".crt" := by
  unfold generateCertFilename
  split
  · exact ⟨_, rfl⟩
  · split
    · exact ⟨_, rfl⟩
    · exact ⟨_, rfl⟩

/-- A `.crt`-suffixed name is never the bundle file's name. -/
theorem crt_ne_bundleFileName (y server : String) :
    y ++ ".crt" ≠ bundleFileName server := by
  intro h
  have h2 := congrArg (fun s : String => s.data.getLast?) h
  simp only [bundleFileName, String.data_append, List.getLast?_append] at h2
  have e1 : (".crt".data).getLast? = some 't' := rfl
  have e2 : ("_bundle.pem".data).getLast? = some 'm' := rfl
  rw [e1, e2] at h2
  have h3 : (some 't' : Option Char) = some 'm' := h2
  exact absurd (Option.some.inj h3) (by decide)

/-- The individual-certificate phase never touches the bundle file. -/
theorem createIndividualCertsGo_lookup_bundle (fails : String → Bool)
    (server : String) (certs : List Certificate) :
    ∀ (i : Nat) (fs : FileSys),
      lookupFs ((createIndividualCertsGo fails certs i fs).fs)
          (bundleFileName server)
        = lookupFs fs (bundleFileName server) := by
  induction certs with
  | nil => intro i fs; rfl
  | cons c rest ih =>
    intro i fs
    cases hex : fileExistsOn fs (generateCertFilename c i)
    · cases hf : fails (generateCertFilename c i)
      · rw [createIndividualCertsGo_cons_write _ _ _ _ _ hex hf, ih]
        obtain ⟨y, hy⟩ := generateCertFilename_crt c i
        rw [hy]
        exact lookupFs_write_ne _ _ _ _ (crt_ne_bundleFileName y server)
      · rw [createIndividualCertsGo_cons_fail _ _ _ _ _ hex hf]
    · rw [createIndividualCertsGo_cons_exists _ _ _ _ _ hex, ih]

/-- A file that already exists keeps its contents through the
individual-certificate phase: existing files are never overwritten. -/
theorem createIndividualCertsGo_preserves_existing (fails : String → Bool)
    (certs : List Certificate) :
    ∀ (i : Nat) (fs : FileSys) (name : String),
      fileExistsOn fs name = true →
      lookupFs ((createIndividualCertsGo fails certs i fs).fs) name
        = lookupFs fs name := by
  induction certs with
  | nil => intro i fs name _; rfl
  | cons c rest ih =>
    intro i fs name hname
    cases hex : fileExistsOn fs (generateCertFilename c i)
    · cases hf : fails (generateCertFilename c i)
      · rw [createIndividualCertsGo_cons_write _ _ _ _ _ hex hf]
        have hne : generateCertFilename c i ≠ name := by
          intro he
          rw [he] at hex
          rw [hname] at hex
          exact Bool.true_eq_false.mp hex
        rw [ih _ _ _ (by simp [fileExistsOn_write, hname])]
        exact lookupFs_write_ne _ _ _ _ hne
      · rw [createIndividualCertsGo_cons_fail _ _ _ _ _ hex hf]
    · rw [createIndividualCertsGo_cons_exists _ _ _ _ _ hex]
      exact ih _ _ _ hname

/-- After a failure-free individual-certificate phase, a file exists exactly
when it existed before or its name is one of the derived filenames. -/
theorem createIndividualCertsGo_noFail_names (certs : List Certificate) :
    ∀ (i : Nat) (fs : FileSys) (name : String),
      fileExistsOn ((createIndividualCertsGo (fun _ => false) certs i fs).fs)
          name
        = (fileExistsOn fs name || hasStr name (derivedFilenames certs i)) := by
  induction certs with
  | nil => intro i fs name; simp [createIndividualCertsGo, derivedFilenames, hasStr]
  | cons c rest ih =>
    intro i fs name
    simp only [derivedFilenames, hasStr]
    cases hex : fileExistsOn fs (generateCertFilename c i)
    · rw [createIndividualCertsGo_cons_write _ _ _ _ _ hex rfl, ih]
      rw [fileExistsOn_write]
      cases hg : generateCertFilename c i == name <;>
        cases hA : fileExistsOn fs name <;> simp
    · rw [createIndividualCertsGo_cons_exists _ _ _ _ _ hex, ih]
      cases hg : generateCertFilename c i == name
      · simp
      · have : generateCertFilename c i = name := eq_of_beq hg
        rw [← this, hex]
        simp

/-- When the individual-certificate phase fails, it fails at some certificate
`c` whose file creation the environment refused, and the directory it leaves
behind is exactly the directory after successfully processing the certificates
before `c`: those files stay on disk, nothing is rolled back. -/
theorem createIndividualCertsGo_err_decomp (fails : String → Bool)
    (certs : List Certificate) :
    ∀ (i : Nat) (fs : FileSys) (e : String),
      (createIndividualCertsGo fails certs i fs).err = some e →
      ∃ pre c rest, certs = pre ++ c :: rest ∧
        fails (generateCertFilename c (i + pre.length)) = true ∧
        (createIndividualCertsGo fails certs i fs).fs
          = (createIndividualCertsGo fails pre i fs).fs ∧
        (createIndividualCertsGo fails pre i fs).err = none := by
  induction certs with
  | nil =>
    intro i fs e h
    exact absurd h (by simp [createIndividualCertsGo])
  | cons c rest ih =>
    intro i fs e h
    cases hex : fileExistsOn fs (generateCertFilename c i)
    · cases hf : fails (generateCertFilename c i)
      · rw [createIndividualCertsGo_cons_write _ _ _ _ _ hex hf] at h
        obtain ⟨pre, c2, rest2, hsplit, hfail, hfs, herr⟩ := ih _ _ _ h
        refine ⟨c :: pre, c2, rest2, by rw [hsplit]; rfl, ?_, ?_, ?_⟩
        · have hidx : i + (c :: pre).length = i + 1 + pre.length := by
            simp only [List.length_cons]
            omega
          rw [hidx]
          exact hfail
        · rw [createIndividualCertsGo_cons_write _ _ _ _ _ hex hf, hfs,
            createIndividualCertsGo_cons_write _ _ _ _ _ hex hf]
        · rw [createIndividualCertsGo_cons_write _ _ _ _ _ hex hf]
          exact herr
      · refine ⟨[], c, rest, rfl, ?_, ?_, rfl⟩
        · simpa using hf
        · rw [createIndividualCertsGo_cons_fail _ _ _ _ _ hex hf]
          rfl
    · rw [createIndividualCertsGo_cons_exists _ _ _ _ _ hex] at h
      obtain ⟨pre, c2, rest2, hsplit, hfail, hfs, herr⟩ := ih _ _ _ h
      refine ⟨c :: pre, c2, rest2, by rw [hsplit]; rfl, ?_, ?_, ?_⟩
      · have hidx : i + (c :: pre).length = i + 1 + pre.length := by
          simp only [List.length_cons]
          omega
        rw [hidx]
        exact hfail
      · rw [createIndividualCertsGo_cons_exists _ _ _ _ _ hex, hfs,
          createIndividualCertsGo_cons_exists _ _ _ _ _ hex]
      · rw [createIndividualCertsGo_cons_exists _ _ _ _ _ hex]
        exact herr

/-- For a non-empty chain whose bundle creation succeeds, the output phase is:
write the bundle file in full, then run the individual-certificate loop on the
resulting directory. -/
theorem extractCertificatesOutput_step (fails : String → Bool) (server : String)
    (certs : List Certificate) (fs : FileSys) (hne : certs ≠ [])
    (hb : fails (bundleFileName server) = false) :
    extractCertificatesOutput fails server certs fs
      = createIndividualCertsGo fails certs 1
          (fsWrite fs (bundleFileName server) (bundleContent certs)) := by
  unfold extractCertificatesOutput createCertificateBundle
    createIndividualCertificates
  rw [if_neg (fun hh => hne (List.length_eq_zero.mp hh))]
  simp [hb]

/-! ### The bundle file's contents as an intercalation of PEM blocks -/

theorem strAppend_assoc (a b c : String) : (a ++ b) ++ c = a ++ (b ++ c) := by
  apply String.ext
  simp [String.data_append, List.append_assoc]

theorem intercalate_go_append (s : String) : ∀ (l : List String) (a b : String),
    String.intercalate.go (a ++ b) s l = a ++ String.intercalate.go b s l := by
  intro l
  induction l with
  | nil => intro a b; rfl
  | cons x xs ih =>
    intro a b
    show String.intercalate.go ((a ++ b) ++ s ++ x) s xs
      = a ++ String.intercalate.go ((b ++ s) ++ x) s xs
    rw [strAppend_assoc (a ++ b) s x, strAppend_assoc a b (s ++ x),
      ← strAppend_assoc b s x]
    exact ih a ((b ++ s) ++ x)

theorem intercalate_cons_cons (s a b : String) (l : List String) :
    String.intercalate s (a :: b :: l)
      = a ++ s ++ String.intercalate s (b :: l) := by
  show String.intercalate.go ((a ++ s) ++ b) s l
    = (a ++ s) ++ String.intercalate.go b s l
  exact intercalate_go_append s l (a ++ s) b

/-- The bundle contents written by the Go loop — each PEM block followed by a
bare newline except the last — is exactly the newline-intercalation of the
chain's PEM blocks. -/
theorem bundleContent_intercalate (certs : List Certificate) :
    bundleContent certs
      = String.intercalate "\n" (certs.map fun c => pemEncodeCert c.raw) := by
  induction certs with
  | nil => rfl
  | cons c rest ih =>
    cases rest with
    | nil => rfl
    | cons c2 rest2 =>
      rw [List.map_cons]
      rw [show (c2 :: rest2).map (fun c => pemEncodeCert c.raw)
          = pemEncodeCert c2.raw :: rest2.map (fun c => pemEncodeCert c.raw)
        from List.map_cons _ _ _]
      rw [intercalate_cons_cons]
      rw [bundleContent]
      rw [ih]
      rw [List.map_cons, strAppend_assoc]

/-! ### Helper lemmas about target resolution -/

theorem hasChar_append (c : Char) (l1 l2 : List Char) :
    hasChar c (l1 ++ l2) = (hasChar c l1 || hasChar c l2) := by
  induction l1 with
  | nil => simp [hasChar]
  | cons d rest ih => simp [hasChar, ih, Bool.or_assoc]

theorem containsSub_sep_eq_false : ∀ (s : List Char),
    hasChar ':' s = false → containsSub [':', '/', '/'] s = false := by
  intro s
  induction s with
  | nil => intro _; rfl
  | cons d rest ih =>
    intro h
    simp only [hasChar, Bool.or_eq_false_iff] at h
    obtain ⟨h1, h2⟩ := h
    have h1' : (':' == d) = false := by
      simp only [beq_eq_false_iff_ne] at h1 ⊢
      exact fun he => h1 he.symm
    simp [containsSub, isPrefixList, h1', ih h2]

theorem isPrefixList_slashes_eq_false (p : List Char)
    (hp : hasChar '/' p = false) : isPrefixList ['/', '/'] p = false := by
  cases p with
  | nil => rfl
  | cons d rest =>
    simp only [hasChar, Bool.or_eq_false_iff] at hp
    have : ('/' == d) = false := by
      simp only [beq_eq_false_iff_ne] at hp ⊢
      exact fun he => hp.1 he.symm
    simp [isPrefixList, this]

theorem containsSub_sep_hostport : ∀ (hl : List Char),
    hasChar ':' hl = false → ∀ (p : List Char), hasChar ':' p = false →
    hasChar '/' p = false →
    containsSub [':', '/', '/'] (hl ++ ':' :: p) = false := by
  intro hl
  induction hl with
  | nil =>
    intro _ p hp hps
    simp only [List.nil_append, containsSub, isPrefixList]
    simp [isPrefixList_slashes_eq_false p hps, containsSub_sep_eq_false p hp]
  | cons d rest ih =>
    intro hh p hp hps
    simp only [hasChar, Bool.or_eq_false_iff] at hh
    obtain ⟨h1, h2⟩ := hh
    have h1' : (':' == d) = false := by
      simp only [beq_eq_false_iff_ne] at h1 ⊢
      exact fun he => h1 he.symm
    simp only [List.cons_append, containsSub, isPrefixList, h1',
      Bool.false_and, Bool.false_or]
    exact ih h2 p hp hps

theorem lastColonIdx_eq_none : ∀ (s : List Char),
    hasChar ':' s = false → lastColonIdx s = none := by
  intro s
  induction s with
  | nil => intro _; rfl
  | cons d rest ih =>
    intro h
    simp only [hasChar, Bool.or_eq_false_iff] at h
    simp [lastColonIdx, ih h.2, h.1]

theorem lastColonIdx_hostport : ∀ (hl : List Char),
    hasChar ':' hl = false → ∀ (p : List Char), hasChar ':' p = false →
    lastColonIdx (hl ++ ':' :: p) = some hl.length := by
  intro hl
  induction hl with
  | nil =>
    intro _ p hp
    simp [lastColonIdx, lastColonIdx_eq_none p hp]
  | cons d rest ih =>
    intro hh p hp
    simp only [hasChar, Bool.or_eq_false_iff] at hh
    simp [lastColonIdx, ih hh.2 p hp]

theorem splitHostPort_hostport (hl p : List Char)
    (hh1 : hasChar ':' hl = false) (hh2 : hasChar '[' hl = false)
    (hh3 : hasChar ']' hl = false) (hp1 : hasChar ':' p = false)
    (hp2 : hasChar '[' p = false) (hp3 : hasChar ']' p = false) :
    splitHostPort (hl ++ ':' :: p) = some (hl, p) := by
  unfold splitHostPort
  rw [lastColonIdx_hostport hl hh1 p hp1]
  have hbL : hasChar '[' (hl ++ ':' :: p) = false := by
    rw [hasChar_append]
    simp only [hh2, Bool.false_or]
    simp [hasChar, hp2]
  have hbR : hasChar ']' (hl ++ ':' :: p) = false := by
    rw [hasChar_append]
    simp only [hh3, Bool.false_or]
    simp [hasChar, hp3]
  have hhead : isPrefixList ['['] (hl ++ ':' :: p) = false := by
    cases hl with
    | nil => rfl
    | cons d hl2 =>
      simp only [hasChar, Bool.or_eq_false_iff] at hh2
      have : ('[' == d) = false := by
        simp only [beq_eq_false_iff_ne] at hh2 ⊢
        exact fun he => hh2.1 he.symm
      simp [isPrefixList, this]
  split
  · next heq => exact absurd heq (by simp)
  · next i heq =>
    injection heq with hi
    subst hi
    simp only [hhead, Bool.false_eq_true, if_false, List.take_left, hh1, hbL,
      hbR]
    rw [show hl ++ ':' :: p = (hl ++ [':']) ++ p from by simp]
    rw [List.drop_left' (by simp)]

/-! ### Claim theorems -/

/-- C1 (code bug).  The claim — matching the spec and the code's own comment
`Remove leading wildcards` — says a common name `"*.Example.Com"` derives the
filename `"Example.Com.crt"`.  The code replaces every character outside
`[A-Za-z0-9._-]`, including `*`, with `_` *before* the
`strings.TrimPrefix(cleaned, "*.")` call, so at trim time the string starts
with `"_."` and the trim never fires: the derived name is
`"_.Example.Com.crt"`.  The replacement half of the claim
(`"My Cert/Test"` → `"My_Cert_Test.crt"`) does hold. -/
theorem sanitize_wildcard_not_stripped :
    generateCertFilename ⟨[], "*.Example.Com", []⟩ 1 = "_.Example.Com.crt"
      ∧ sanitizeFilename "*.Example.Com" = "_.Example.Com"
      ∧ generateCertFilename ⟨[], "My Cert/Test", []⟩ 1
          = "My_Cert_Test.crt" := by
  decide

/-- C2 counterexample.  The claim says a port outside 1–65535 is a resolution
error; the resolver happily returns port 99999. -/
theorem parseTarget_accepts_port_99999 :
    parseTargetStr "example.com:99999"
        = some ⟨"example.com", 99999, "https"⟩
      ∧ (65535 : Int) < 99999 := by
  decide

/-- C2 amended.  For a plain `host:port` target — host free of `:`, `[`, `]`
and the port text free of `:`, `[`, `]`, `/` — resolution is exactly
`strconv.Atoi` on the port text: a non-numeric (or 64-bit-overflowing) port
is a resolution error, but any successfully parsed integer, with no
1–65535 range check, is returned as the port. -/
theorem parseTarget_hostport (hl p : List Char)
    (hh1 : hasChar ':' hl = false) (hh2 : hasChar '[' hl = false)
    (hh3 : hasChar ']' hl = false) (hp1 : hasChar ':' p = false)
    (hp2 : hasChar '[' p = false) (hp3 : hasChar ']' p = false)
    (hps : hasChar '/' p = false) :
    parseTarget (hl ++ ':' :: p)
      = (goAtoi p).map fun v => ⟨String.mk hl, v, "https"⟩ := by
  unfold parseTarget
  rw [show ("://".data : List Char) = [':', '/', '/'] from rfl]
  rw [containsSub_sep_hostport hl hh1 p hp1 hps]
  have hc : hasChar ':' (hl ++ ':' :: p) = true := by
    rw [hasChar_append]
    simp [hasChar]
  simp only [Bool.false_eq_true, if_false, hc, if_true,
    splitHostPort_hostport hl p hh1 hh2 hh3 hp1 hp2 hp3]
  cases hA : goAtoi p <;> simp

theorem parseTarget_hostport_witness :
    parseTarget ("example.com".data ++ ':' :: "abc".data)
      = (goAtoi "abc".data).map
          fun v => ⟨String.mk "example.com".data, v, "https"⟩ :=
  parseTarget_hostport "example.com".data "abc".data (by decide) (by decide)
    (by decide) (by decide) (by decide) (by decide) (by decide)

/-- C3 counterexample.  The claim says an input resolving to an empty host is
a resolution error; `":443"` resolves to a `Target` with empty host. -/
theorem parseTarget_empty_host_accepted :
    parseTargetStr ":443" = some ⟨"", 443, "https"⟩ := by
  decide

/-- C3 amended.  The resolver performs no empty-host check: the empty string,
`":443"` and `"https://"` all resolve successfully to a `Target` whose host
is the empty string.  (The CLI shell rejects an entirely empty target string
before the resolver runs, but the resolver itself accepts all three.) -/
theorem parseTarget_empty_host_targets :
    parseTargetStr "" = some ⟨"", 443, "https"⟩
      ∧ parseTargetStr ":443" = some ⟨"", 443, "https"⟩
      ∧ parseTargetStr "https://" = some ⟨"", 443, "https"⟩ := by
  decide

/-- C4 counterexample.  The claim says every protocol, smtp included, opens
exactly one TCP connection per invocation; the smtp path dials twice — once
for the standard-library probe and once for the custom STARTTLS capture. -/
theorem engineTrace_smtp_two_connects :
    countConnects (engineTrace "smtp.example.com" 587 "smtp") = 2
      ∧ countConnects (engineTrace "smtp.example.com" 587 "smtp") ≠ 1 := by
  decide

/-- C4 amended.  One invocation opens exactly one TCP connection for the
https, tls, imap, pop3 and unknown-protocol paths, and exactly two for smtp
(the standard-library probe connection, closed, then the custom STARTTLS
connection). -/
theorem engineTrace_connect_count (server : String) (port : Int)
    (protocol : String) :
    countConnects (engineTrace server port protocol)
      = if protocol = "smtp" then 2 else 1 := by
  unfold engineTrace
  by_cases h1 : protocol = "https" ∨ protocol = "tls"
  · rw [if_pos h1]
    have hne : ¬ protocol = "smtp" := by
      rcases h1 with h | h <;> subst h <;> decide
    rw [if_neg hne]
    rfl
  · rw [if_neg h1]
    by_cases h2 : protocol = "smtp"
    · rw [if_pos h2, if_pos h2]
      rfl
    · rw [if_neg h2, if_neg h2]
      by_cases h3 : protocol = "imap"
      · rw [if_pos h3]
        rfl
      · rw [if_neg h3]
        by_cases h4 : protocol = "pop3"
        · rw [if_pos h4]
          rfl
        · rw [if_neg h4]
          rfl

/-- C5 counterexample.  Two certificates with the same common name derive the
same filename; with no pre-existing files the claim predicts 2 individual
files, but the second certificate finds the file just written for the first
and is skipped, so only 1 file is created. -/
theorem createIndividual_duplicate_name_cex :
    (createIndividualCertificates (fun _ => false)
          [⟨[1], "a", []⟩, ⟨[2], "a", []⟩] []).fs.length = 1
      ∧ generateCertFilename ⟨[1], "a", []⟩ 1
          = generateCertFilename ⟨[2], "a", []⟩ 2
      ∧ ¬ ((createIndividualCertificates (fun _ => false)
          [⟨[1], "a", []⟩, ⟨[2], "a", []⟩] []).fs.length = 2) := by
  decide

/-- C5 amended.  The individual-file phase never fails (absent I/O errors)
and, after it runs, a file exists exactly when it existed before or its name
is one of the chain's derived filenames: each certificate is written unless
its derived name collides with a pre-existing file *or* with the file created
for an earlier certificate of the same run. -/
theorem createIndividual_creates_new_names (certs : List Certificate)
    (fs : FileSys) (name : String) :
    (createIndividualCertificates (fun _ => false) certs fs).err = none
      ∧ fileExistsOn
            (createIndividualCertificates (fun _ => false) certs fs).fs name
          = (fileExistsOn fs name || hasStr name (derivedFilenames certs 1)) :=
  ⟨createIndividualCertsGo_noFail_err certs 1 fs,
    createIndividualCertsGo_noFail_names certs 1 fs name⟩

/-- C6 (confirmed).  For a non-empty chain the run succeeds, the file named
`<host>_bundle.pem` holds the full bundle, and that bundle is exactly the
newline-intercalation of one PEM `CERTIFICATE` block per certificate in chain
order: since every block ends in a newline of its own, consecutive blocks are
separated by a single blank line and nothing follows the last block. -/
theorem bundle_file_full_content (server : String) (certs : List Certificate)
    (fs : FileSys) (hne : certs ≠ []) :
    (extractCertificatesOutput (fun _ => false) server certs fs).err = none
      ∧ lookupFs (extractCertificatesOutput (fun _ => false) server certs
            fs).fs (bundleFileName server) = some (bundleContent certs)
      ∧ bundleContent certs
          = String.intercalate "\n" (certs.map fun c => pemEncodeCert c.raw)
      ∧ (certs.map fun c => pemEncodeCert c.raw).length = certs.length
      ∧ ∀ c ∈ certs, ∃ body, pemEncodeCert c.raw
          = "-----BEGIN CERTIFICATE-----\n" ++ body
              ++ "-----END CERTIFICATE-----\n" := by
  rw [extractCertificatesOutput_step (fun _ => false) server certs fs hne rfl]
  refine ⟨createIndividualCertsGo_noFail_err certs 1 _, ?_,
    bundleContent_intercalate certs, by simp, ?_⟩
  · rw [createIndividualCertsGo_lookup_bundle (fun _ => false) server certs 1 _]
    exact lookupFs_write_self fs (bundleFileName server) (bundleContent certs)
  · intro c _
    exact ⟨String.mk (pemBody c.raw), rfl⟩

theorem bundle_file_full_content_witness :
    (extractCertificatesOutput (fun _ => false) "h" [⟨[1], "a", []⟩] []).err
        = none
      ∧ lookupFs (extractCertificatesOutput (fun _ => false) "h"
            [⟨[1], "a", []⟩] []).fs (bundleFileName "h")
          = some (bundleContent [⟨[1], "a", []⟩])
      ∧ bundleContent [⟨[1], "a", []⟩]
          = String.intercalate "\n"
              (([⟨[1], "a", []⟩] : List Certificate).map
                fun c => pemEncodeCert c.raw)
      ∧ (([⟨[1], "a", []⟩] : List Certificate).map
            fun c => pemEncodeCert c.raw).length
          = ([⟨[1], "a", []⟩] : List Certificate).length
      ∧ ∀ c ∈ ([⟨[1], "a", []⟩] : List Certificate), ∃ body,
          pemEncodeCert c.raw
            = "-----BEGIN CERTIFICATE-----\n" ++ body
                ++ "-----END CERTIFICATE-----\n" :=
  bundle_file_full_content "h" [⟨[1], "a", []⟩] [] (by decide)

/-- C7 (confirmed).  A chain of zero certificates makes the output phase stop
with the distinct `no certificates found` error and leave the directory
untouched: neither the bundle file nor any individual file is created. -/
theorem empty_chain_no_output (fails : String → Bool) (server : String)
    (fs : FileSys) :
    extractCertificatesOutput fails server [] fs
      = ⟨fs, some "no certificates found"⟩ :=
  rfl

/-- C8 (confirmed).  On the pop3 path the engine connects, reads exactly one
greeting, writes exactly the bytes `STLS\r\n` once, reads exactly one
response, and only then starts the TLS handshake on the same socket; no other
bytes are written before the handshake. -/
theorem pop3_starttls_bytes (server : String) (port : Int) :
    (engineTrace server port "pop3").takeWhile (fun e => !isHandshake e)
        = [.connect server port, .readResp, .write "STLS\r\n", .readResp]
      ∧ ((engineTrace server port "pop3").takeWhile
            (fun e => !isHandshake e)).filterMap writeData = ["STLS\r\n"]
      ∧ engineTrace server port "pop3"
          = [.connect server port, .readResp, .write "STLS\r\n", .readResp,
              .tlsHandshake server, .closeConn] :=
  ⟨rfl, rfl, rfl⟩

/-- C9 (confirmed).  When a certificate's derived filename (always a
`.crt`-suffixed name, hence never the bundle file) already exists, the run
still succeeds, the pre-existing file's contents are untouched, and the
bundle file is still written in full. -/
theorem collision_preserves_existing_file (server : String)
    (certs : List Certificate) (fs : FileSys) (name : String)
    (hne : certs ≠ []) (hex : fileExistsOn fs name = true)
    (hnb : name ≠ bundleFileName server) :
    (extractCertificatesOutput (fun _ => false) server certs fs).err = none
      ∧ lookupFs
            (extractCertificatesOutput (fun _ => false) server certs fs).fs
            name
          = lookupFs fs name
      ∧ lookupFs
            (extractCertificatesOutput (fun _ => false) server certs fs).fs
            (bundleFileName server)
          = some (bundleContent certs) := by
  rw [extractCertificatesOutput_step (fun _ => false) server certs fs hne rfl]
  refine ⟨createIndividualCertsGo_noFail_err certs 1 _, ?_, ?_⟩
  · have hex1 : fileExistsOn
        (fsWrite fs (bundleFileName server) (bundleContent certs)) name
        = true := by
      rw [fileExistsOn_write, hex]
      simp
    rw [createIndividualCertsGo_preserves_existing (fun _ => false) certs 1 _
      name hex1]
    exact lookupFs_write_ne fs (bundleFileName server) (bundleContent certs)
      name (fun he => hnb he.symm)
  · rw [createIndividualCertsGo_lookup_bundle (fun _ => false) server certs 1 _]
    exact lookupFs_write_self fs (bundleFileName server) (bundleContent certs)

theorem collision_preserves_existing_file_witness :
    (extractCertificatesOutput (fun _ => false) "h" [⟨[1], "a", []⟩]
          [("a.crt", "old")]).err = none
      ∧ lookupFs (extractCertificatesOutput (fun _ => false) "h"
            [⟨[1], "a", []⟩] [("a.crt", "old")]).fs "a.crt"
          = lookupFs [("a.crt", "old")] "a.crt"
      ∧ lookupFs (extractCertificatesOutput (fun _ => false) "h"
            [⟨[1], "a", []⟩] [("a.crt", "old")]).fs (bundleFileName "h")
          = some (bundleContent [⟨[1], "a", []⟩]) :=
  collision_preserves_existing_file "h" [⟨[1], "a", []⟩] [("a.crt", "old")]
    "a.crt" (by decide) (by decide) (by decide)

/-- C10 (confirmed, implicit claim).  Output is not atomic: when the run
fails (and the bundle's own creation did not fail), the bundle file is
already on disk with its full contents, the failure happened at some
certificate whose file creation the environment refused, and the directory is
exactly the one after the bundle write plus the successful processing of the
certificates before the failing one — nothing is rolled back. -/
theorem output_not_atomic_on_failure (fails : String → Bool) (server : String)
    (certs : List Certificate) (fs : FileSys) (e : String)
    (hne : certs ≠ []) (hb : fails (bundleFileName server) = false)
    (herr : (extractCertificatesOutput fails server certs fs).err = some e) :
    lookupFs (extractCertificatesOutput fails server certs fs).fs
        (bundleFileName server) = some (bundleContent certs)
      ∧ ∃ pre c rest, certs = pre ++ c :: rest
          ∧ fails (generateCertFilename c (1 + pre.length)) = true
          ∧ (extractCertificatesOutput fails server certs fs).fs
              = (createIndividualCertsGo fails pre 1
                  (fsWrite fs (bundleFileName server)
                    (bundleContent certs))).fs
          ∧ (createIndividualCertsGo fails pre 1
              (fsWrite fs (bundleFileName server)
                (bundleContent certs))).err = none := by
  rw [extractCertificatesOutput_step fails server certs fs hne hb] at herr ⊢
  obtain ⟨pre, c, rest, hsplit, hfail, hfs, herr2⟩ :=
    createIndividualCertsGo_err_decomp fails certs 1 _ e herr
  refine ⟨?_, pre, c, rest, hsplit, hfail, hfs, herr2⟩
  rw [createIndividualCertsGo_lookup_bundle fails server certs 1 _]
  exact lookupFs_write_self fs (bundleFileName server) (bundleContent certs)

theorem output_not_atomic_on_failure_witness :
    lookupFs (extractCertificatesOutput (fun n => n == "b.crt") "h"
          [⟨[1], "a", []⟩, ⟨[2], "b", []⟩] []).fs (bundleFileName "h")
        = some (bundleContent [⟨[1], "a", []⟩, ⟨[2], "b", []⟩])
      ∧ ∃ pre c rest,
          ([⟨[1], "a", []⟩, ⟨[2], "b", []⟩] : List Certificate)
              = pre ++ c :: rest
            ∧ (fun n => n == "b.crt")
                (generateCertFilename c (1 + pre.length)) = true
            ∧ (extractCertificatesOutput (fun n => n == "b.crt") "h"
                  [⟨[1], "a", []⟩, ⟨[2], "b", []⟩] []).fs
                = (createIndividualCertsGo (fun n => n == "b.crt") pre 1
                    (fsWrite [] (bundleFileName "h")
                      (bundleContent
                        [⟨[1], "a", []⟩, ⟨[2], "b", []⟩]))).fs
            ∧ (createIndividualCertsGo (fun n => n == "b.crt") pre 1
                (fsWrite [] (bundleFileName "h")
                  (bundleContent
                    [⟨[1], "a", []⟩, ⟨[2], "b", []⟩]))).err = none :=
  output_not_atomic_on_failure (fun n => n == "b.crt") "h"
    [⟨[1], "a", []⟩, ⟨[2], "b", []⟩] []
    "failed to create individual certificate" (by decide) (by decide)
    (by decide)

end CaBundle
